import Mathlib

attribute [local semireducible] Rat.add Rat.sub Rat.mul Rat.inv

/-!
Shallow embedding of the collaborative drawing engine:
the standalone whiteboard (`Standalone`, from the unnamed Whiteboard
component) and the room-integrated whiteboard (`Room`, from
WhiteboardCanvas.tsx).  Coordinates and sizes are modelled as rationals;
JavaScript arrays become `List`, optional fields become `Option`.
-/

namespace Standalone

/-- A point `{x, y}` in world coordinates. -/
structure Point where
  x : ℚ
  y : ℚ
deriving DecidableEq, Repr

/-- Axis-aligned bounding box `{x, y, width, height}`. -/
structure BBox where
  x : ℚ
  y : ℚ
  width : ℚ
  height : ℚ
deriving DecidableEq, Repr

/-- The per-kind payload of the discriminated `Shape` union of the
standalone board: `freehand`/`eraser` carry a point list, `rect`/`circle`
carry origin and (possibly negative, pre-normalization) size, `arrow`
carries two endpoints, `text` carries an anchor and its content. -/
inductive ShapeGeom where
  | freehand (points : List Point)
  | eraser (points : List Point)
  | rect (x y width height : ℚ)
  | circle (x y width height : ℚ)
  | arrow (x1 y1 x2 y2 : ℚ)
  | text (x y : ℚ) (content : String)
deriving DecidableEq, Repr

/-- A shape of the standalone board: common fields of `BaseShape`
plus the kind-specific payload; `bbox` is the optional cached
bounding box (`bbox?: BBox`). -/
structure Shape where
  id : String
  color : String
  stroke : ℚ
  fontSize : ℚ
  geom : ShapeGeom
  bbox : Option BBox
deriving DecidableEq, Repr

/-- `shape.type !== 'eraser' && shape.type !== 'freehand'` — the rigid
kinds (rect / circle / arrow / text) that the eraser hard-deletes. -/
def isRigidKind (g : ShapeGeom) : Bool :=
  match g with
  | .freehand _ => false
  | .eraser _ => false
  | _ => true

/-- `AppState` of the standalone board's `useReducer`. -/
structure AppState where
  shapes : List Shape
  history : List (List Shape)
  historyIndex : Nat
deriving DecidableEq, Repr

/-- The standalone board's `AppAction`. -/
inductive AppAction where
  | ADD_SHAPE (payload : Shape)
  | UPDATE_SHAPES (payload : List Shape)
  | SET_SHAPES_NO_HISTORY (payload : List Shape)
  | UNDO
  | REDO
  | CLEAR
deriving DecidableEq, Repr

/-- `initialState`: no shapes, history `[[]]`, index 0. -/
def initialState : AppState :=
  { shapes := [], history := [[]], historyIndex := 0 }

/-- The standalone board's `reducer`.  `history.slice(0, historyIndex+1)`
is `List.take (historyIndex+1)`; array reads `history[i]` are `getD i []`
(the guard conditions keep every read in range on reachable states). -/
def reducer (state : AppState) (action : AppAction) : AppState :=
  match action with
  | .ADD_SHAPE payload =>
      let newShapes := state.shapes ++ [payload]
      let newHistory := state.history.take (state.historyIndex + 1) ++ [newShapes]
      { state with shapes := newShapes, history := newHistory,
                   historyIndex := newHistory.length - 1 }
  | .UPDATE_SHAPES payload =>
      let newHistory := state.history.take (state.historyIndex + 1) ++ [payload]
      { state with shapes := payload, history := newHistory,
                   historyIndex := newHistory.length - 1 }
  | .SET_SHAPES_NO_HISTORY payload =>
      { state with shapes := payload }
  | .UNDO =>
      if state.historyIndex > 0 then
        let newIndex := state.historyIndex - 1
        { state with shapes := state.history.getD newIndex [], historyIndex := newIndex }
      else state
  | .REDO =>
      if state.historyIndex < state.history.length - 1 then
        let newIndex := state.historyIndex + 1
        { state with shapes := state.history.getD newIndex [], historyIndex := newIndex }
      else state
  | .CLEAR =>
      { state with shapes := [], history := [[]], historyIndex := 0 }

/-- Dispatch a list of actions in order (left fold over the reducer). -/
def applyActions (s : AppState) (as : List AppAction) : AppState :=
  as.foldl reducer s

/-- Result of `ctx.measureText` for a given content and font size: advance
width and the actual ascent/descent.  The rendering surface supplies it,
so the embedding takes it as a parameter. -/
structure TextMetrics where
  width : ℚ
  ascent : ℚ
  descent : ℚ
deriving DecidableEq, Repr

/-- A text-measurement capability: content and font size to metrics. -/
def Measure : Type := String → ℚ → TextMetrics

/-- Minimum of the `x` coordinates of a nonempty point list
(`Math.min(...points.map(p => p.x))`). -/
def minX (p : Point) (ps : List Point) : ℚ := ps.foldl (fun a q => min a q.x) p.x

/-- Minimum of the `y` coordinates of a nonempty point list. -/
def minY (p : Point) (ps : List Point) : ℚ := ps.foldl (fun a q => min a q.y) p.y

/-- Maximum of the `x` coordinates of a nonempty point list. -/
def maxX (p : Point) (ps : List Point) : ℚ := ps.foldl (fun a q => max a q.x) p.x

/-- Maximum of the `y` coordinates of a nonempty point list. -/
def maxY (p : Point) (ps : List Point) : ℚ := ps.foldl (fun a q => max a q.y) p.y

/-- `updateBoundingBox`: recompute `shape.bbox` from its geometry.
Point-sequence shapes take the min/max box expanded by half the stroke;
rect/circle take origin+size directly; arrow spans its endpoints; text
uses the measured glyph extents. -/
def updateBoundingBox (measure : Measure) (s : Shape) : Shape :=
  match s.geom with
  | .freehand [] | .eraser [] =>
      { s with bbox := some ⟨0, 0, 0, 0⟩ }
  | .freehand (p :: ps) | .eraser (p :: ps) =>
      let b : BBox :=
        ⟨minX p ps - s.stroke / 2, minY p ps - s.stroke / 2,
         (maxX p ps - minX p ps) + s.stroke, (maxY p ps - minY p ps) + s.stroke⟩
      { s with bbox := some b }
  | .rect x y w h | .circle x y w h =>
      { s with bbox := some ⟨x, y, w, h⟩ }
  | .arrow x1 y1 x2 y2 =>
      { s with bbox := some ⟨min x1 x2, min y1 y2, |x1 - x2|, |y1 - y2|⟩ }
  | .text x y content =>
      let m := measure content s.fontSize
      { s with bbox := some ⟨x, y - m.ascent, m.width, m.ascent + m.descent⟩ }

/-- The standard AABB overlap test of the eraser branch:
`a.x < b.x + b.width && a.x + a.width > b.x && a.y < b.y + b.height &&
a.y + a.height > b.y`. -/
def boxesIntersect (a b : BBox) : Bool :=
  decide (a.x < b.x + b.width) && decide (a.x + a.width > b.x) &&
  decide (a.y < b.y + b.height) && decide (a.y + a.height > b.y)

/-- The box the eraser tests against on a pointer-move: centered on the
pointer, half-size `eraserStroke` in each direction. -/
def eraserBBoxAt (pos : Point) (eraserStroke : ℚ) : BBox :=
  ⟨pos.x - eraserStroke, pos.y - eraserStroke, eraserStroke * 2, eraserStroke * 2⟩

/-- The keep-predicate of the eraser branch's `filter((shape, idx) => ...)`:
the last shape (the live eraser stroke) and shapes without a cached bbox
are kept; any other shape is kept unless its bbox intersects the eraser box
and its kind is neither `eraser` nor `freehand`. -/
def eraserKeep (ebb : BBox) (n : Nat) (idx : Nat) (s : Shape) : Bool :=
  if idx = n - 1 then true
  else
    match s.bbox with
    | none => true
    | some b => !(boxesIntersect ebb b && isRigidKind s.geom)

/-- JavaScript's `Array.prototype.filter` with the element index passed to
the callback. -/
def filterIdx (p : Nat → Shape → Bool) : Nat → List Shape → List Shape
  | _, [] => []
  | i, s :: rest =>
      if p i s then s :: filterIdx p (i + 1) rest else filterIdx p (i + 1) rest

/-- Append `pos` to the point list of a freehand/eraser shape
(`lastShape.points.push(pos)`); other kinds are untouched. -/
def pushPoint (pos : Point) (s : Shape) : Shape :=
  match s.geom with
  | .freehand ps => { s with geom := .freehand (ps ++ [pos]) }
  | .eraser ps => { s with geom := .eraser (ps ++ [pos]) }
  | _ => s

/-- Is the shape of `eraser` kind? -/
def isEraserKind (s : Shape) : Bool :=
  match s.geom with
  | .eraser _ => true
  | _ => false

/-- The eraser branch of `handlePointerMove` (active drawing with the
eraser tool): if the last shape is not an eraser stroke the handler
returns without dispatching; otherwise the current position is pushed
onto the stroke and every other shape whose bbox intersects the eraser
box is removed unless it is freehand/eraser kind. -/
def handlePointerMoveEraser (shapes : List Shape) (pos : Point)
    (eraserStroke : ℚ) : List Shape :=
  match shapes.getLast? with
  | none => shapes
  | some last =>
      if isEraserKind last then
        let shapes' := shapes.dropLast ++ [pushPoint pos last]
        let ebb := eraserBBoxAt pos eraserStroke
        filterIdx (eraserKeep ebb shapes'.length) 0 shapes'
      else shapes

/-- The negative-size normalization of `handlePointerUp` for rect/circle:
`if (width < 0) { x += width; width *= -1 }` and likewise for height;
all other kinds pass through. -/
def normalizeShape (s : Shape) : Shape :=
  match s.geom with
  | .rect x y w h =>
      let xw := if w < 0 then (x + w, -w) else (x, w)
      let yh := if h < 0 then (y + h, -h) else (y, h)
      { s with geom := .rect xw.1 yh.1 xw.2 yh.2 }
  | .circle x y w h =>
      let xw := if w < 0 then (x + w, -w) else (x, w)
      let yh := if h < 0 then (y + h, -h) else (y, h)
      { s with geom := .circle xw.1 yh.1 xw.2 yh.2 }
  | _ => s

/-- `handlePointerUp` while drawing: if a last shape exists, normalize it,
recompute its bounding box, and commit the scene via `UPDATE_SHAPES`. -/
def handlePointerUpDrawing (measure : Measure) (s : AppState) : AppState :=
  match s.shapes.getLast? with
  | none => s
  | some last =>
      let finished := updateBoundingBox measure (normalizeShape last)
      reducer s (.UPDATE_SHAPES (s.shapes.dropLast ++ [finished]))

/-- An ASCII whitespace character, as trimmed by `String.prototype.trim`. -/
def isJsSpace (c : Char) : Bool :=
  c = ' ' || c = '\t' || c = '\n' || c = '\r'

/-- `text.trim()`: drop leading and trailing whitespace characters. -/
def jsTrim (s : String) : String :=
  ⟨((s.data.dropWhile isJsSpace).reverse.dropWhile isJsSpace).reverse⟩

/-- `finishEditingText`, as the committed `UPDATE_SHAPES` payload: when the
edited shape is a text shape whose trimmed content is empty, it is filtered
out of the scene; otherwise its bounding box is recomputed in place. -/
def finishEditingText (measure : Measure) (shapes : List Shape) (i : Nat) :
    List Shape :=
  match shapes.get? i with
  | none => shapes
  | some shape =>
      match shape.geom with
      | .text _ _ content =>
          if jsTrim content = "" then shapes.eraseIdx i
          else shapes.set i (updateBoundingBox measure shape)
      | _ => shapes.set i (updateBoundingBox measure shape)

/-- The zoom update of `handleWheel`: factor 1.1 when scrolling up
(`deltaY < 0`), 1/1.1 otherwise, clamped into `[0.1, 10]`
(`Math.max(0.1, Math.min(view.zoom * zoomFactor, 10))`). -/
def handleWheelZoom (zoom deltaY : ℚ) : ℚ :=
  let zoomFactor := if deltaY < 0 then 11/10 else 10/11
  max (1/10) (min (zoom * zoomFactor) 10)

/-- The text shape created by `handlePointerDown` with the text tool:
content is the empty string, stroke 0, bbox computed immediately. -/
def newTextShapeAt (measure : Measure) (id : String) (color : String)
    (fontSize : ℚ) (pos : Point) : Shape :=
  updateBoundingBox measure
    { id := id, color := color, stroke := 0, fontSize := fontSize,
      geom := .text pos.x pos.y "", bbox := none }

/-- `handlePointerDown` with the text tool: dispatch a committed
`ADD_SHAPE` of the fresh empty text shape. -/
def handlePointerDownText (measure : Measure) (s : AppState) (id : String)
    (color : String) (fontSize : ℚ) (pos : Point) : AppState :=
  reducer s (.ADD_SHAPE (newTextShapeAt measure id color fontSize pos))

end Standalone

namespace Room

open Standalone (Point BBox)

/-- The `Tool` union shared by both boards. -/
inductive Tool where
  | select | pan | freehand | rect | circle | arrow | text | eraser
deriving DecidableEq, Repr

/-- `WhiteboardElement` of the room board: a flat record (not a union):
every element has a `points` list; `fontSize`, `text`, `bbox` optional. -/
structure WhiteboardElement where
  id : String
  type : Tool
  points : List Point
  color : String
  strokeWidth : ℚ
  fontSize : Option ℚ
  text : Option String
  bbox : Option BBox
deriving DecidableEq, Repr

/-- `Partial<WhiteboardElement>` for `UPDATE_ELEMENT`: present fields
override the element's fields (object spread `{...el, ...updates}`). -/
structure ElementUpdates where
  id : Option String
  type : Option Tool
  points : Option (List Point)
  color : Option String
  strokeWidth : Option ℚ
  fontSize : Option (Option ℚ)
  text : Option (Option String)
  bbox : Option (Option BBox)
deriving DecidableEq, Repr

/-- `{ ...el, ...updates }`. -/
def applyUpdates (el : WhiteboardElement) (u : ElementUpdates) : WhiteboardElement :=
  { id := u.id.getD el.id
    type := u.type.getD el.type
    points := u.points.getD el.points
    color := u.color.getD el.color
    strokeWidth := u.strokeWidth.getD el.strokeWidth
    fontSize := u.fontSize.getD el.fontSize
    text := u.text.getD el.text
    bbox := u.bbox.getD el.bbox }

/-- `WhiteboardState` of the room board. -/
structure WhiteboardState where
  elements : List WhiteboardElement
  selectedElementIds : List String
  history : List (List WhiteboardElement)
  historyIndex : Nat
  zoom : ℚ
  pan : Point
deriving DecidableEq, Repr

/-- The room board's `WhiteboardAction`. -/
inductive WhiteboardAction where
  | ADD_ELEMENT (element : WhiteboardElement)
  | UPDATE_ELEMENT (id : String) (updates : ElementUpdates)
  | DELETE_ELEMENTS (ids : List String)
  | SELECT_ELEMENTS (ids : List String)
  | CLEAR_SELECTION
  | UNDO
  | REDO
  | CLEAR_ALL
  | SET_ZOOM (zoom : ℚ)
  | SET_PAN (pan : Point)
  | LOAD_STATE (state : List WhiteboardElement)
deriving DecidableEq, Repr

/-- `whiteboardReducer` of the room board. -/
def whiteboardReducer (state : WhiteboardState) (action : WhiteboardAction) :
    WhiteboardState :=
  match action with
  | .ADD_ELEMENT element =>
      let newElements := state.elements ++ [element]
      { state with
          elements := newElements,
          history := state.history.take (state.historyIndex + 1) ++ [newElements],
          historyIndex := state.historyIndex + 1 }
  | .UPDATE_ELEMENT id updates =>
      { state with elements :=
          state.elements.map (fun el => if el.id = id then applyUpdates el updates else el) }
  | .DELETE_ELEMENTS ids =>
      let filteredElements := state.elements.filter (fun el => !(ids.contains el.id))
      { state with
          elements := filteredElements,
          selectedElementIds := [],
          history := state.history.take (state.historyIndex + 1) ++ [filteredElements],
          historyIndex := state.historyIndex + 1 }
  | .SELECT_ELEMENTS ids =>
      { state with selectedElementIds := ids }
  | .CLEAR_SELECTION =>
      { state with selectedElementIds := [] }
  | .UNDO =>
      if state.historyIndex > 0 then
        { state with
            elements := state.history.getD (state.historyIndex - 1) [],
            historyIndex := state.historyIndex - 1,
            selectedElementIds := [] }
      else state
  | .REDO =>
      if state.historyIndex < state.history.length - 1 then
        { state with
            elements := state.history.getD (state.historyIndex + 1) [],
            historyIndex := state.historyIndex + 1,
            selectedElementIds := [] }
      else state
  | .CLEAR_ALL =>
      { state with
          elements := [],
          selectedElementIds := [],
          history := state.history.take (state.historyIndex + 1) ++ [[]],
          historyIndex := state.historyIndex + 1 }
  | .SET_ZOOM zoom =>
      { state with zoom := max (1/10) (min 5 zoom) }
  | .SET_PAN pan =>
      { state with pan := pan }
  | .LOAD_STATE st =>
      { state with elements := st }

/-- Dispatch a list of actions in order. -/
def applyActions (s : WhiteboardState) (as : List WhiteboardAction) : WhiteboardState :=
  as.foldl whiteboardReducer s

/-- The room board's `useReducer` initial state: no elements, empty
selection, history `[[]]`, index 0, zoom 1, pan `(0, 0)`. -/
def initialWhiteboardState : WhiteboardState :=
  { elements := [], selectedElementIds := [], history := [[]],
    historyIndex := 0, zoom := 1, pan := ⟨0, 0⟩ }

/-- Commit a sequence of elements one by one from the initial state. -/
def commitElements (es : List WhiteboardElement) : WhiteboardState :=
  applyActions initialWhiteboardState (es.map .ADD_ELEMENT)

/-- Dispatch `UNDO` `n` times. -/
def undoElemTimes (s : WhiteboardState) (n : Nat) : WhiteboardState :=
  applyActions s (List.replicate n .UNDO)

end Room

namespace Standalone

/-- Commit a sequence of shapes one by one from the initial state
(each via a committed `ADD_SHAPE`). -/
def commitShapes (ss : List Shape) : AppState :=
  applyActions initialState (ss.map .ADD_SHAPE)

/-- Dispatch `UNDO` `n` times. -/
def undoTimes (s : AppState) (n : Nat) : AppState :=
  applyActions s (List.replicate n .UNDO)

/-- Does a cached bbox exist that intersects the eraser box, on a shape of
rigid kind?  This is exactly the removal condition of the eraser branch
for the non-last shapes. -/
def shouldErase (ebb : BBox) (s : Shape) : Bool :=
  match s.bbox with
  | none => false
  | some b => boxesIntersect ebb b && isRigidKind s.geom

/-- Is the shape of `freehand` kind? -/
def isFreehandKind (s : Shape) : Bool :=
  match s.geom with
  | .freehand _ => true
  | _ => false

/-- The in-progress rect geometry after pointer-down at `start` and a
pointer-move to `endp`: `width = pos.x - lastShape.x`,
`height = pos.y - lastShape.y`. -/
def dragRectGeom (start endp : Point) : ShapeGeom :=
  .rect start.x start.y (endp.x - start.x) (endp.y - start.y)

/-- The in-progress circle geometry after pointer-down at `start` and a
pointer-move to `endp` (same size update as rect). -/
def dragCircleGeom (start endp : Point) : ShapeGeom :=
  .circle start.x start.y (endp.x - start.x) (endp.y - start.y)

end Standalone

/-! ### Concrete sample data for witnesses and counterexamples -/

/-- A text measure that returns zero extents (text metrics are irrelevant
to non-text shapes). -/
def zeroMeasure : Standalone.Measure := fun _ _ => ⟨0, 0, 0⟩

/-- A simple deterministic text measure: width half a font size per
character, ascent the font size, descent a quarter of it. -/
def simpleMeasure : Standalone.Measure :=
  fun content fontSize =>
    ⟨(content.length : ℚ) * (fontSize / 2), fontSize, fontSize / 4⟩

/-- A committed rectangle near the origin. -/
def sRect : Standalone.Shape :=
  { id := "rect1", color := "#e03131", stroke := 2, fontSize := 24,
    geom := .rect 0 0 4 4, bbox := some ⟨0, 0, 4, 4⟩ }

/-- A committed freehand stroke overlapping `sRect`. -/
def sFree : Standalone.Shape :=
  { id := "free1", color := "#1e1e1e", stroke := 2, fontSize := 24,
    geom := .freehand [⟨1, 1⟩, ⟨2, 2⟩], bbox := some ⟨0, 0, 3, 3⟩ }

/-- A live eraser stroke at the origin. -/
def sEraser : Standalone.Shape :=
  { id := "eraser1", color := "#fff", stroke := 12, fontSize := 24,
    geom := .eraser [⟨0, 0⟩], bbox := some ⟨-6, -6, 12, 12⟩ }

/-- A text shape whose content is only whitespace. -/
def sTextBlank : Standalone.Shape :=
  { id := "text1", color := "#1e1e1e", stroke := 0, fontSize := 24,
    geom := .text 3 4 "  ", bbox := some ⟨3, 4, 0, 0⟩ }

/-- A text shape with non-empty content. -/
def sTextHi : Standalone.Shape :=
  { id := "text2", color := "#1e1e1e", stroke := 0, fontSize := 24,
    geom := .text 3 4 "hi", bbox := none }

/-- A room-board rectangle element with id `"a"`. -/
def eRect : Room.WhiteboardElement :=
  { id := "a", type := .rect, points := [⟨0, 0⟩, ⟨2, 2⟩],
    color := "#1e1e1e", strokeWidth := 2, fontSize := none,
    text := none, bbox := none }

/-- A room-board freehand element with id `"b"`. -/
def eFree : Room.WhiteboardElement :=
  { id := "b", type := .freehand, points := [⟨5, 5⟩, ⟨6, 6⟩],
    color := "#e03131", strokeWidth := 2, fontSize := none,
    text := none, bbox := none }

/-- A room-board state with element `"a"` committed and selected. -/
def roomStateSel : Room.WhiteboardState :=
  { elements := [eRect], selectedElementIds := ["a"],
    history := [[], [eRect]], historyIndex := 1, zoom := 1, pan := ⟨0, 0⟩ }

/-- A `Partial<WhiteboardElement>` that only changes the color. -/
def updColor : Room.ElementUpdates :=
  { id := none, type := none, points := none, color := some "#f08c00",
    strokeWidth := none, fontSize := none, text := none, bbox := none }

/-! ### Generic list lemmas -/

/-- Reading right past a list's end picks the appended element. -/
theorem listGetD_concat_length {α : Type} (m : List α) (x d : α) :
    (m ++ [x]).getD m.length d = x := by
  simp [List.getD]

/-- Reading inside the left part of an append. -/
theorem listGetD_append_left {α : Type} (m l2 : List α) (j : Nat)
    (h : j < m.length) (d : α) : (m ++ l2).getD j d = m.getD j d := by
  simp [List.getD, List.getElem?_append_left h]

/-- Taking one more element than an in-range index yields that many. -/
theorem listTake_succ_length {α : Type} (l : List α) (i : Nat)
    (h : i < l.length) : (l.take (i + 1)).length = i + 1 := by
  simp [List.length_take]; omega

/-! ### History lemmas for the standalone board -/

namespace Standalone

theorem reducer_undo_of_pos (s : AppState) (h : 0 < s.historyIndex) :
    reducer s .UNDO =
      { s with shapes := s.history.getD (s.historyIndex - 1) [],
               historyIndex := s.historyIndex - 1 } := by
  simp [reducer, h]

theorem reducer_undo_at_zero (s : AppState) (h : s.historyIndex = 0) :
    reducer s .UNDO = s := by
  simp [reducer, h]

theorem reducer_redo_at_last (s : AppState)
    (h : s.history.length ≤ s.historyIndex + 1) : reducer s .REDO = s := by
  have : ¬ s.historyIndex < s.history.length - 1 := by omega
  simp [reducer, this]

theorem undoTimes_spec (k : Nat) :
    ∀ s : AppState, 1 ≤ k → k ≤ s.historyIndex →
      (undoTimes s k).shapes = s.history.getD (s.historyIndex - k) [] ∧
      (undoTimes s k).historyIndex = s.historyIndex - k ∧
      (undoTimes s k).history = s.history := by
  induction k with
  | zero => intro s h1 _; omega
  | succ k ih =>
      intro s _ hk
      have hpos : 0 < s.historyIndex := by omega
      have hstep : undoTimes s (k + 1) = undoTimes (reducer s .UNDO) k := by
        simp [undoTimes, applyActions, List.replicate_succ]
      rcases Nat.eq_zero_or_pos k with hk0 | hk1
      · subst hk0
        rw [hstep]
        rw [reducer_undo_of_pos s hpos]
        exact ⟨rfl, rfl, rfl⟩
      · rw [hstep, reducer_undo_of_pos s hpos]
        have := ih { s with shapes := s.history.getD (s.historyIndex - 1) [],
                            historyIndex := s.historyIndex - 1 } hk1 (by simp; omega)
        simpa [Nat.sub_sub, Nat.add_comm] using this

theorem commitShapes_spec (ss : List Shape) :
    (commitShapes ss).shapes = ss ∧
    (commitShapes ss).historyIndex = ss.length ∧
    (commitShapes ss).history.length = ss.length + 1 ∧
    (commitShapes ss).history.getD 0 [] = [] := by
  induction ss using List.reverseRecOn with
  | nil => exact ⟨rfl, rfl, rfl, rfl⟩
  | append_singleton ts t ih =>
      obtain ⟨ih1, ih2, ih3, ih4⟩ := ih
      have hstep : commitShapes (ts ++ [t])
          = reducer (commitShapes ts) (.ADD_SHAPE t) := by
        simp [commitShapes, applyActions, List.foldl_append]
      have htake : (commitShapes ts).history.take ((commitShapes ts).historyIndex + 1)
          = (commitShapes ts).history := by
        rw [ih2, ← ih3]
        exact List.take_length _
      constructor
      · rw [hstep]; simp [reducer, ih1]
      constructor
      · rw [hstep]; simp only [reducer]
        rw [htake]
        simp [ih3]
      constructor
      · rw [hstep]; simp only [reducer]
        rw [htake]
        simp [ih3]
      · rw [hstep]; simp only [reducer]
        rw [htake]
        have hpos : 0 < (commitShapes ts).history.length := by omega
        rw [listGetD_append_left _ _ 0 hpos]
        exact ih4

end Standalone

/-! ### History lemmas for the room board -/

namespace Room

theorem wbr_undo_of_pos (s : WhiteboardState) (h : 0 < s.historyIndex) :
    whiteboardReducer s .UNDO =
      { s with elements := s.history.getD (s.historyIndex - 1) [],
               historyIndex := s.historyIndex - 1,
               selectedElementIds := [] } := by
  simp [whiteboardReducer, h]

theorem wbr_undo_at_zero (s : WhiteboardState) (h : s.historyIndex = 0) :
    whiteboardReducer s .UNDO = s := by
  simp [whiteboardReducer, h]

theorem wbr_redo_at_last (s : WhiteboardState)
    (h : s.history.length ≤ s.historyIndex + 1) : whiteboardReducer s .REDO = s := by
  have : ¬ s.historyIndex < s.history.length - 1 := by omega
  simp [whiteboardReducer, this]

theorem undoElemTimes_spec (k : Nat) :
    ∀ s : WhiteboardState, 1 ≤ k → k ≤ s.historyIndex →
      (undoElemTimes s k).elements = s.history.getD (s.historyIndex - k) [] ∧
      (undoElemTimes s k).historyIndex = s.historyIndex - k ∧
      (undoElemTimes s k).history = s.history := by
  induction k with
  | zero => intro s h1 _; omega
  | succ k ih =>
      intro s _ hk
      have hpos : 0 < s.historyIndex := by omega
      have hstep : undoElemTimes s (k + 1)
          = undoElemTimes (whiteboardReducer s .UNDO) k := by
        simp [undoElemTimes, applyActions, List.replicate_succ]
      rcases Nat.eq_zero_or_pos k with hk0 | hk1
      · subst hk0
        rw [hstep]
        rw [wbr_undo_of_pos s hpos]
        exact ⟨rfl, rfl, rfl⟩
      · rw [hstep, wbr_undo_of_pos s hpos]
        have := ih { s with elements := s.history.getD (s.historyIndex - 1) [],
                            historyIndex := s.historyIndex - 1,
                            selectedElementIds := [] } hk1 (by simp; omega)
        simpa [Nat.sub_sub, Nat.add_comm] using this

theorem commitElements_spec (es : List WhiteboardElement) :
    (commitElements es).elements = es ∧
    (commitElements es).historyIndex = es.length ∧
    (commitElements es).history.length = es.length + 1 ∧
    (commitElements es).history.getD 0 [] = [] := by
  induction es using List.reverseRecOn with
  | nil => exact ⟨rfl, rfl, rfl, rfl⟩
  | append_singleton ts t ih =>
      obtain ⟨ih1, ih2, ih3, ih4⟩ := ih
      have hstep : commitElements (ts ++ [t])
          = whiteboardReducer (commitElements ts) (.ADD_ELEMENT t) := by
        simp [commitElements, applyActions, List.foldl_append]
      have htake : (commitElements ts).history.take ((commitElements ts).historyIndex + 1)
          = (commitElements ts).history := by
        rw [ih2, ← ih3]
        exact List.take_length _
      constructor
      · rw [hstep]; simp [whiteboardReducer, ih1]
      constructor
      · rw [hstep]; simp only [whiteboardReducer]
        simp [ih2]
      constructor
      · rw [hstep]; simp only [whiteboardReducer]
        rw [htake]
        simp [ih3]
      · rw [hstep]; simp only [whiteboardReducer]
        rw [htake]
        have hpos : 0 < (commitElements ts).history.length := by omega
        rw [listGetD_append_left _ _ 0 hpos]
        exact ih4

end Room

/-! ### C1: undo returns to the empty scene; boundary undo/redo are no-ops -/

/-- C1: starting from the initial history, committing N shapes and then
undoing N times returns the displayed scene to the empty scene with
cursor 0; an (N+1)-th undo leaves the whole state unchanged, and redo
right after the commits (at the last history index) is a no-op.  Both the
standalone and the room reducer satisfy this. -/
theorem undo_n_then_boundary_noops :
    (∀ ss : List Standalone.Shape,
      (Standalone.undoTimes (Standalone.commitShapes ss) ss.length).shapes = [] ∧
      (Standalone.undoTimes (Standalone.commitShapes ss) ss.length).historyIndex = 0 ∧
      Standalone.reducer (Standalone.undoTimes (Standalone.commitShapes ss) ss.length)
          .UNDO
        = Standalone.undoTimes (Standalone.commitShapes ss) ss.length ∧
      Standalone.reducer (Standalone.commitShapes ss) .REDO
        = Standalone.commitShapes ss) ∧
    (∀ es : List Room.WhiteboardElement,
      (Room.undoElemTimes (Room.commitElements es) es.length).elements = [] ∧
      (Room.undoElemTimes (Room.commitElements es) es.length).historyIndex = 0 ∧
      Room.whiteboardReducer (Room.undoElemTimes (Room.commitElements es) es.length)
          .UNDO
        = Room.undoElemTimes (Room.commitElements es) es.length ∧
      Room.whiteboardReducer (Room.commitElements es) .REDO
        = Room.commitElements es) := by
  constructor
  · intro ss
    obtain ⟨h1, h2, h3, h4⟩ := Standalone.commitShapes_spec ss
    have hredo : Standalone.reducer (Standalone.commitShapes ss) .REDO
        = Standalone.commitShapes ss :=
      Standalone.reducer_redo_at_last _ (by omega)
    rcases Nat.eq_zero_or_pos ss.length with hz | hpos
    · have hss : ss = [] := List.eq_nil_of_length_eq_zero hz
      subst hss
      simp only [List.length_nil]
      have hu0 : Standalone.undoTimes (Standalone.commitShapes []) 0
          = Standalone.commitShapes [] := rfl
      refine ⟨?_, ?_, ?_, hredo⟩
      · rw [hu0, h1]
      · rw [hu0]; simpa using h2
      · rw [hu0]; exact Standalone.reducer_undo_at_zero _ (by simpa using h2)
    · obtain ⟨u1, u2, u3⟩ :=
        Standalone.undoTimes_spec ss.length (Standalone.commitShapes ss) hpos
          (by omega)
      have hidx :
          (Standalone.undoTimes (Standalone.commitShapes ss) ss.length).historyIndex
            = 0 := by rw [u2, h2]; omega
      refine ⟨?_, hidx, ?_, hredo⟩
      · rw [u1, h2]
        simpa using h4
      · exact Standalone.reducer_undo_at_zero _ hidx
  · intro es
    obtain ⟨h1, h2, h3, h4⟩ := Room.commitElements_spec es
    have hredo : Room.whiteboardReducer (Room.commitElements es) .REDO
        = Room.commitElements es :=
      Room.wbr_redo_at_last _ (by omega)
    rcases Nat.eq_zero_or_pos es.length with hz | hpos
    · have hes : es = [] := List.eq_nil_of_length_eq_zero hz
      subst hes
      simp only [List.length_nil]
      have hu0 : Room.undoElemTimes (Room.commitElements []) 0
          = Room.commitElements [] := rfl
      refine ⟨?_, ?_, ?_, hredo⟩
      · rw [hu0, h1]
      · rw [hu0]; simpa using h2
      · rw [hu0]; exact Room.wbr_undo_at_zero _ (by simpa using h2)
    · obtain ⟨u1, u2, u3⟩ :=
        Room.undoElemTimes_spec es.length (Room.commitElements es) hpos (by omega)
      have hidx :
          (Room.undoElemTimes (Room.commitElements es) es.length).historyIndex
            = 0 := by rw [u2, h2]; omega
      refine ⟨?_, hidx, ?_, hredo⟩
      · rw [u1, h2]
        simpa using h4
      · exact Room.wbr_undo_at_zero _ hidx

/-! ### C2: every commit truncates to the cursor, appends, and re-establishes
the history invariant -/

/-- Shared arithmetic of a commit `take (i+1) ++ [x]` on a history list. -/
theorem commitList_facts {α : Type} (h : List (List α)) (i : Nat)
    (hi : i < h.length) (x : List α) :
    (h.take (i + 1) ++ [x]).length = i + 2 ∧
    (h.take (i + 1) ++ [x]).length - 1 = i + 1 ∧
    (h.take (i + 1) ++ [x]).getD (i + 1) [] = x := by
  have hlen := listTake_succ_length h i hi
  refine ⟨by simp [hlen], by simp [hlen], ?_⟩
  have hc := listGetD_concat_length (h.take (i + 1)) x []
  rwa [hlen] at hc

/-- C2: each committing action (`ADD_SHAPE`/`UPDATE_SHAPES` on the
standalone board, `ADD_ELEMENT`/`DELETE_ELEMENTS`/`CLEAR_ALL` on the room
board) truncates the snapshots to `[0..cursor]`, appends the committed
scene, and sets the cursor to the new last index, so afterwards
`cursor < length snapshots` and `snapshots[cursor]` is the committed
scene. -/
theorem commit_truncates_appends_sets_cursor :
    (∀ (s : Standalone.AppState) (sh : Standalone.Shape),
      s.historyIndex < s.history.length →
      (Standalone.reducer s (.ADD_SHAPE sh)).history
          = s.history.take (s.historyIndex + 1) ++ [s.shapes ++ [sh]] ∧
      (Standalone.reducer s (.ADD_SHAPE sh)).shapes = s.shapes ++ [sh] ∧
      (Standalone.reducer s (.ADD_SHAPE sh)).historyIndex = s.historyIndex + 1 ∧
      (Standalone.reducer s (.ADD_SHAPE sh)).historyIndex
          = (Standalone.reducer s (.ADD_SHAPE sh)).history.length - 1 ∧
      (Standalone.reducer s (.ADD_SHAPE sh)).historyIndex
          < (Standalone.reducer s (.ADD_SHAPE sh)).history.length ∧
      (Standalone.reducer s (.ADD_SHAPE sh)).history.getD
            (Standalone.reducer s (.ADD_SHAPE sh)).historyIndex []
          = s.shapes ++ [sh]) ∧
    (∀ (s : Standalone.AppState) (payload : List Standalone.Shape),
      s.historyIndex < s.history.length →
      (Standalone.reducer s (.UPDATE_SHAPES payload)).history
          = s.history.take (s.historyIndex + 1) ++ [payload] ∧
      (Standalone.reducer s (.UPDATE_SHAPES payload)).shapes = payload ∧
      (Standalone.reducer s (.UPDATE_SHAPES payload)).historyIndex
          = s.historyIndex + 1 ∧
      (Standalone.reducer s (.UPDATE_SHAPES payload)).historyIndex
          < (Standalone.reducer s (.UPDATE_SHAPES payload)).history.length ∧
      (Standalone.reducer s (.UPDATE_SHAPES payload)).history.getD
            (Standalone.reducer s (.UPDATE_SHAPES payload)).historyIndex []
          = payload) ∧
    (∀ (w : Room.WhiteboardState) (el : Room.WhiteboardElement),
      w.historyIndex < w.history.length →
      (Room.whiteboardReducer w (.ADD_ELEMENT el)).history
          = w.history.take (w.historyIndex + 1) ++ [w.elements ++ [el]] ∧
      (Room.whiteboardReducer w (.ADD_ELEMENT el)).elements = w.elements ++ [el] ∧
      (Room.whiteboardReducer w (.ADD_ELEMENT el)).historyIndex
          = w.historyIndex + 1 ∧
      (Room.whiteboardReducer w (.ADD_ELEMENT el)).historyIndex
          = (Room.whiteboardReducer w (.ADD_ELEMENT el)).history.length - 1 ∧
      (Room.whiteboardReducer w (.ADD_ELEMENT el)).historyIndex
          < (Room.whiteboardReducer w (.ADD_ELEMENT el)).history.length ∧
      (Room.whiteboardReducer w (.ADD_ELEMENT el)).history.getD
            (Room.whiteboardReducer w (.ADD_ELEMENT el)).historyIndex []
          = w.elements ++ [el]) ∧
    (∀ (w : Room.WhiteboardState) (ids : List String),
      w.historyIndex < w.history.length →
      (Room.whiteboardReducer w (.DELETE_ELEMENTS ids)).history
          = w.history.take (w.historyIndex + 1)
              ++ [w.elements.filter (fun el => !(ids.contains el.id))] ∧
      (Room.whiteboardReducer w (.DELETE_ELEMENTS ids)).elements
          = w.elements.filter (fun el => !(ids.contains el.id)) ∧
      (Room.whiteboardReducer w (.DELETE_ELEMENTS ids)).historyIndex
          < (Room.whiteboardReducer w (.DELETE_ELEMENTS ids)).history.length ∧
      (Room.whiteboardReducer w (.DELETE_ELEMENTS ids)).history.getD
            (Room.whiteboardReducer w (.DELETE_ELEMENTS ids)).historyIndex []
          = w.elements.filter (fun el => !(ids.contains el.id))) ∧
    (∀ w : Room.WhiteboardState,
      w.historyIndex < w.history.length →
      (Room.whiteboardReducer w .CLEAR_ALL).history
          = w.history.take (w.historyIndex + 1) ++ [[]] ∧
      (Room.whiteboardReducer w .CLEAR_ALL).elements = [] ∧
      (Room.whiteboardReducer w .CLEAR_ALL).historyIndex
          < (Room.whiteboardReducer w .CLEAR_ALL).history.length ∧
      (Room.whiteboardReducer w .CLEAR_ALL).history.getD
            (Room.whiteboardReducer w .CLEAR_ALL).historyIndex []
          = []) := by
  refine ⟨?_, ?_, ?_, ?_, ?_⟩
  · intro s sh h
    obtain ⟨f1, f2, f3⟩ := commitList_facts s.history s.historyIndex h (s.shapes ++ [sh])
    exact ⟨rfl, rfl, by simp [Standalone.reducer, f2]; omega,
      by simp [Standalone.reducer], by simp [Standalone.reducer, f1, f2],
      by simp only [Standalone.reducer]; rw [f2]; exact f3⟩
  · intro s payload h
    obtain ⟨f1, f2, f3⟩ := commitList_facts s.history s.historyIndex h payload
    exact ⟨rfl, rfl, by simp [Standalone.reducer, f2]; omega,
      by simp [Standalone.reducer, f1, f2],
      by simp only [Standalone.reducer]; rw [f2]; exact f3⟩
  · intro w el h
    obtain ⟨f1, f2, f3⟩ := commitList_facts w.history w.historyIndex h (w.elements ++ [el])
    exact ⟨rfl, rfl, rfl, by simp [Room.whiteboardReducer, f1],
      by simp [Room.whiteboardReducer, f1], f3⟩
  · intro w ids h
    obtain ⟨f1, f2, f3⟩ := commitList_facts w.history w.historyIndex h
      (w.elements.filter (fun el => !(ids.contains el.id)))
    exact ⟨rfl, rfl, by simp [Room.whiteboardReducer, f1]; omega, f3⟩
  · intro w h
    obtain ⟨f1, f2, f3⟩ := commitList_facts w.history w.historyIndex h []
    exact ⟨rfl, rfl, by simp [Room.whiteboardReducer, f1], f3⟩

/-- Witness for the commit invariant, at concrete states with the
cursor-in-range hypothesis discharged by computation. -/
theorem commit_truncates_appends_sets_cursor_witness :
    (Standalone.reducer Standalone.initialState (.ADD_SHAPE sRect)).history.getD
        (Standalone.reducer Standalone.initialState (.ADD_SHAPE sRect)).historyIndex []
      = Standalone.initialState.shapes ++ [sRect] ∧
    (Standalone.reducer Standalone.initialState
        (.UPDATE_SHAPES [sRect])).historyIndex
      < (Standalone.reducer Standalone.initialState
          (.UPDATE_SHAPES [sRect])).history.length ∧
    (Room.whiteboardReducer roomStateSel (.ADD_ELEMENT eFree)).history
      = roomStateSel.history.take (roomStateSel.historyIndex + 1)
          ++ [roomStateSel.elements ++ [eFree]] ∧
    (Room.whiteboardReducer roomStateSel (.DELETE_ELEMENTS ["a"])).elements
      = roomStateSel.elements.filter
          (fun el => !((["a"] : List String).contains el.id)) ∧
    (Room.whiteboardReducer roomStateSel .CLEAR_ALL).history.getD
        (Room.whiteboardReducer roomStateSel .CLEAR_ALL).historyIndex [] = [] :=
  ⟨(commit_truncates_appends_sets_cursor.1 Standalone.initialState sRect
      (by decide)).2.2.2.2.2,
   (commit_truncates_appends_sets_cursor.2.1 Standalone.initialState [sRect]
      (by decide)).2.2.2.1,
   (commit_truncates_appends_sets_cursor.2.2.1 roomStateSel eFree (by decide)).1,
   (commit_truncates_appends_sets_cursor.2.2.2.1 roomStateSel ["a"] (by decide)).2.1,
   (commit_truncates_appends_sets_cursor.2.2.2.2 roomStateSel (by decide)).2.2.2⟩

/-! ### C7 (corrected): applyWithoutHistory only sets the displayed scene;
the snapshot under the cursor is left stale -/

/-- C7 counterexample: after a `SET_SHAPES_NO_HISTORY` (resp.
`UPDATE_ELEMENT`), `snapshots[cursor]` does NOT equal the currently
displayed scene — the claim that the in-place mutation replaces
`snapshots[cursor]` fails at this concrete input. -/
theorem apply_without_history_stale_snapshot_cx :
    (Standalone.reducer Standalone.initialState
        (.SET_SHAPES_NO_HISTORY [sRect])).history.getD
        (Standalone.reducer Standalone.initialState
          (.SET_SHAPES_NO_HISTORY [sRect])).historyIndex []
      ≠ (Standalone.reducer Standalone.initialState
          (.SET_SHAPES_NO_HISTORY [sRect])).shapes ∧
    (Room.whiteboardReducer roomStateSel (.UPDATE_ELEMENT "a" updColor)).history.getD
        (Room.whiteboardReducer roomStateSel
          (.UPDATE_ELEMENT "a" updColor)).historyIndex []
      ≠ (Room.whiteboardReducer roomStateSel
          (.UPDATE_ELEMENT "a" updColor)).elements := by
  constructor <;> decide

/-- C7 (amended): the no-history mutation (`SET_SHAPES_NO_HISTORY` on the
standalone board, `UPDATE_ELEMENT` on the room board) sets only the
displayed scene; the snapshot list and the cursor are completely
unchanged, so `snapshots[cursor]` retains the last committed scene and
may differ from the displayed scene until the next commit. -/
theorem apply_without_history_only_sets_scene :
    (∀ (s : Standalone.AppState) (payload : List Standalone.Shape),
      (Standalone.reducer s (.SET_SHAPES_NO_HISTORY payload)).shapes = payload ∧
      (Standalone.reducer s (.SET_SHAPES_NO_HISTORY payload)).history = s.history ∧
      (Standalone.reducer s (.SET_SHAPES_NO_HISTORY payload)).historyIndex
        = s.historyIndex) ∧
    (∀ (w : Room.WhiteboardState) (id : String) (u : Room.ElementUpdates),
      (Room.whiteboardReducer w (.UPDATE_ELEMENT id u)).elements
        = w.elements.map
            (fun el => if el.id = id then Room.applyUpdates el u else el) ∧
      (Room.whiteboardReducer w (.UPDATE_ELEMENT id u)).history = w.history ∧
      (Room.whiteboardReducer w (.UPDATE_ELEMENT id u)).historyIndex
        = w.historyIndex) :=
  ⟨fun _ _ => ⟨rfl, rfl, rfl⟩, fun _ _ _ => ⟨rfl, rfl, rfl⟩⟩

/-! ### C4 (corrected): a remote scene-update replaces the scene wholesale
but does NOT clear the selection -/

/-- C4 counterexample: receiving a remote snapshot (`LOAD_STATE`) leaves
the selection untouched — at this concrete input the selection is still
`["a"]` afterwards, refuting the claim that it is cleared. -/
theorem load_state_selection_not_cleared_cx :
    (Room.whiteboardReducer roomStateSel (.LOAD_STATE [eFree])).selectedElementIds
      ≠ ([] : List String) := by
  decide

/-- C4 (amended): processing a received `scene-update` (`LOAD_STATE`)
replaces the local scene unconditionally with exactly the received
sequence — shapes present only locally are gone, no merge — while the
selection, history, cursor, zoom and pan are all left unchanged (the
selection is NOT cleared). -/
theorem load_state_replaces_scene_wholesale :
    ∀ (w : Room.WhiteboardState) (st : List Room.WhiteboardElement),
      (Room.whiteboardReducer w (.LOAD_STATE st)).elements = st ∧
      (Room.whiteboardReducer w (.LOAD_STATE st)).selectedElementIds
        = w.selectedElementIds ∧
      (Room.whiteboardReducer w (.LOAD_STATE st)).history = w.history ∧
      (Room.whiteboardReducer w (.LOAD_STATE st)).historyIndex = w.historyIndex ∧
      (Room.whiteboardReducer w (.LOAD_STATE st)).zoom = w.zoom ∧
      (Room.whiteboardReducer w (.LOAD_STATE st)).pan = w.pan :=
  fun _ _ => ⟨rfl, rfl, rfl, rfl, rfl, rfl⟩

/-! ### C8: zoom is always clamped to its configured bounds -/

theorem handleWheelZoom_bounds (z d : ℚ) :
    1/10 ≤ Standalone.handleWheelZoom z d ∧ Standalone.handleWheelZoom z d ≤ 10 := by
  unfold Standalone.handleWheelZoom
  exact ⟨le_max_left _ _, max_le (by norm_num) (min_le_right _ _)⟩

theorem handleWheelZoom_fold_bounds (ds : List ℚ) :
    ∀ z d : ℚ,
      1/10 ≤ ds.foldl Standalone.handleWheelZoom (Standalone.handleWheelZoom z d) ∧
      ds.foldl Standalone.handleWheelZoom (Standalone.handleWheelZoom z d) ≤ 10 := by
  induction ds with
  | nil => intro z d; exact handleWheelZoom_bounds z d
  | cons d2 ds2 ih =>
      intro z d
      exact ih (Standalone.handleWheelZoom z d) d2

theorem setZoom_bounds (w : Room.WhiteboardState) (z : ℚ) :
    1/10 ≤ (Room.whiteboardReducer w (.SET_ZOOM z)).zoom ∧
    (Room.whiteboardReducer w (.SET_ZOOM z)).zoom ≤ 5 := by
  show 1/10 ≤ max (1/10) (min 5 z) ∧ max (1/10) (min 5 z) ≤ 5
  exact ⟨le_max_left _ _, max_le (by norm_num) (min_le_left _ _)⟩

theorem setZoom_fold_bounds (zs : List ℚ) :
    ∀ (w : Room.WhiteboardState) (z : ℚ),
      1/10 ≤ (Room.applyActions w (.SET_ZOOM z :: zs.map .SET_ZOOM)).zoom ∧
      (Room.applyActions w (.SET_ZOOM z :: zs.map .SET_ZOOM)).zoom ≤ 5 := by
  induction zs with
  | nil => intro w z; exact setZoom_bounds w z
  | cons z2 zs2 ih =>
      intro w z
      exact ih (Room.whiteboardReducer w (.SET_ZOOM z)) z2

/-- C8: for every current zoom and every requested change — a single wheel
delta of any magnitude, any sequence of wheel zooms, a single `SET_ZOOM`,
or any sequence of `SET_ZOOM` dispatches — the resulting zoom lies within
`[0.1, 10]` on the standalone board and `[0.1, 5]` on the room board. -/
theorem zoom_always_clamped :
    (∀ z d : ℚ,
      1/10 ≤ Standalone.handleWheelZoom z d ∧ Standalone.handleWheelZoom z d ≤ 10) ∧
    (∀ (z d : ℚ) (ds : List ℚ),
      1/10 ≤ ds.foldl Standalone.handleWheelZoom (Standalone.handleWheelZoom z d) ∧
      ds.foldl Standalone.handleWheelZoom (Standalone.handleWheelZoom z d) ≤ 10) ∧
    (∀ (w : Room.WhiteboardState) (z : ℚ),
      1/10 ≤ (Room.whiteboardReducer w (.SET_ZOOM z)).zoom ∧
      (Room.whiteboardReducer w (.SET_ZOOM z)).zoom ≤ 5) ∧
    (∀ (w : Room.WhiteboardState) (z : ℚ) (zs : List ℚ),
      1/10 ≤ (Room.applyActions w (.SET_ZOOM z :: zs.map .SET_ZOOM)).zoom ∧
      (Room.applyActions w (.SET_ZOOM z :: zs.map .SET_ZOOM)).zoom ≤ 5) :=
  ⟨handleWheelZoom_bounds,
   fun z d ds => handleWheelZoom_fold_bounds ds z d,
   setZoom_bounds,
   fun w z zs => setZoom_fold_bounds zs w z⟩

/-! ### C9 (corrected): standalone CLEAR resets history outright; room
CLEAR_ALL commits an empty scene and remains undoable -/

/-- Reading inside the taken part of a list. -/
theorem listGetD_take {α : Type} (l : List (List α)) (n i : Nat) (h : i < n) :
    (l.take n).getD i [] = l.getD i [] := by
  simp [List.getD, List.getElem?_take, h]

/-- C9 counterexample: on the room board, `CLEAR_ALL` does NOT reset the
history to a single empty scene with cursor 0, and undo immediately after
clear is NOT a no-op — both refuted at this concrete state. -/
theorem clear_resets_history_cx :
    ¬ ((Room.whiteboardReducer roomStateSel .CLEAR_ALL).history = [[]] ∧
       (Room.whiteboardReducer roomStateSel .CLEAR_ALL).historyIndex = 0) ∧
    Room.whiteboardReducer (Room.whiteboardReducer roomStateSel .CLEAR_ALL) .UNDO
      ≠ Room.whiteboardReducer roomStateSel .CLEAR_ALL := by
  constructor <;> decide

/-- C9 (amended): on the standalone board, `CLEAR` resets the whole
history to the initial state (single empty scene, cursor 0), so undo
immediately after clear is a no-op; on the room board, `CLEAR_ALL`
instead commits the empty scene as a new snapshot (cursor increments,
old snapshots are kept), so undo immediately after clear restores the
pre-clear snapshot. -/
theorem clear_standalone_resets_room_commits :
    (∀ s : Standalone.AppState,
      Standalone.reducer s .CLEAR = Standalone.initialState ∧
      Standalone.reducer (Standalone.reducer s .CLEAR) .UNDO
        = Standalone.reducer s .CLEAR) ∧
    (∀ w : Room.WhiteboardState, w.historyIndex < w.history.length →
      (Room.whiteboardReducer w .CLEAR_ALL).elements = [] ∧
      (Room.whiteboardReducer w .CLEAR_ALL).historyIndex = w.historyIndex + 1 ∧
      (Room.whiteboardReducer w .CLEAR_ALL).history
        = w.history.take (w.historyIndex + 1) ++ [[]] ∧
      (Room.whiteboardReducer (Room.whiteboardReducer w .CLEAR_ALL) .UNDO).elements
        = w.history.getD w.historyIndex [] ∧
      (Room.whiteboardReducer (Room.whiteboardReducer w .CLEAR_ALL) .UNDO).historyIndex
        = w.historyIndex) := by
  constructor
  · intro s
    have hclear : Standalone.reducer s .CLEAR = Standalone.initialState := by
      rcases s with ⟨a, b, c⟩; rfl
    refine ⟨hclear, ?_⟩
    rw [hclear]
    exact Standalone.reducer_undo_at_zero _ rfl
  · intro w h
    have hlen := listTake_succ_length w.history w.historyIndex h
    have hundo := Room.wbr_undo_of_pos (Room.whiteboardReducer w .CLEAR_ALL)
      (by show 0 < w.historyIndex + 1; omega)
    refine ⟨rfl, rfl, rfl, ?_, ?_⟩
    · rw [hundo]
      show (w.history.take (w.historyIndex + 1) ++ [[]]).getD (w.historyIndex + 1 - 1) []
          = w.history.getD w.historyIndex []
      have hi : w.historyIndex + 1 - 1 = w.historyIndex := by omega
      rw [hi, listGetD_append_left _ _ _ (by omega), listGetD_take _ _ _ (by omega)]
    · rw [hundo]
      show w.historyIndex + 1 - 1 = w.historyIndex
      omega

/-- Witness for the amended clear semantics, at a concrete room state with
the cursor-in-range hypothesis discharged by computation. -/
theorem clear_standalone_resets_room_commits_witness :
    roomStateSel.historyIndex < roomStateSel.history.length ∧
    (Room.whiteboardReducer (Room.whiteboardReducer roomStateSel .CLEAR_ALL)
        .UNDO).elements
      = roomStateSel.history.getD roomStateSel.historyIndex [] :=
  ⟨by decide,
   (clear_standalone_resets_room_commits.2 roomStateSel (by decide)).2.2.2.1⟩

/-! ### C3: the eraser pass removes exactly the intersecting rigid shapes
and never removes freehand/eraser ink -/

namespace Standalone

theorem filterIdx_append (p : Nat → Shape → Bool) (a : List Shape) :
    ∀ (b : List Shape) (j : Nat),
      filterIdx p j (a ++ b) = filterIdx p j a ++ filterIdx p (j + a.length) b := by
  induction a with
  | nil => intro b j; simp [filterIdx]
  | cons s rest ih =>
      intro b j
      have harith : j + 1 + rest.length = j + (rest.length + 1) := by omega
      by_cases h : p j s <;>
        simp [filterIdx, h, ih b (j + 1), harith]

theorem eraserKeep_of_ne_last (ebb : BBox) (n j : Nat) (s : Shape)
    (h : ¬ j = n - 1) : eraserKeep ebb n j s = !(shouldErase ebb s) := by
  unfold eraserKeep shouldErase
  rw [if_neg h]
  cases s.bbox <;> simp

theorem filterIdx_eraserKeep_low (ebb : BBox) (n : Nat) (l : List Shape) :
    ∀ j : Nat, j + l.length ≤ n - 1 →
      filterIdx (eraserKeep ebb n) j l
        = l.filter (fun s => !(shouldErase ebb s)) := by
  induction l with
  | nil => intro j _; simp [filterIdx]
  | cons s rest ih =>
      intro j h
      have hlen : j + (rest.length + 1) ≤ n - 1 := by simpa using h
      have hne : ¬ j = n - 1 := by omega
      have hrec := ih (j + 1) (by omega)
      simp only [filterIdx, List.filter_cons]
      rw [eraserKeep_of_ne_last ebb n j s hne, hrec]

theorem filterIdx_eraserKeep_last (ebb : BBox) (n j : Nat) (s : Shape)
    (h : j = n - 1) : filterIdx (eraserKeep ebb n) j [s] = [s] := by
  simp [filterIdx, eraserKeep, h]

theorem handlePointerMoveEraser_concat (ts : List Shape) (t : Shape)
    (pos : Point) (stroke : ℚ) (he : isEraserKind t = true) :
    handlePointerMoveEraser (ts ++ [t]) pos stroke
      = ts.filter (fun s => !(shouldErase (eraserBBoxAt pos stroke) s))
          ++ [pushPoint pos t] := by
  unfold handlePointerMoveEraser
  rw [List.getLast?_concat]
  simp only [he, if_true, List.dropLast_concat]
  have hn : (ts ++ [pushPoint pos t]).length = ts.length + 1 := by simp
  rw [hn]
  rw [filterIdx_append]
  rw [filterIdx_eraserKeep_low _ _ _ 0 (by simp)]
  rw [filterIdx_eraserKeep_last _ _ _ _ (by simp)]

theorem shouldErase_of_not_rigid (ebb : BBox) (s : Shape)
    (h : isRigidKind s.geom = false) : shouldErase ebb s = false := by
  unfold shouldErase
  cases s.bbox <;> simp [h]

theorem isFreehandKind_not_rigid (s : Shape) (hf : isFreehandKind s = true) :
    isRigidKind s.geom = false := by
  unfold isFreehandKind at hf
  cases hg : s.geom <;> simp_all [isRigidKind]

theorem eraser_keeps_freehand_mem (shapes : List Shape) (pos : Point)
    (stroke : ℚ) (s : Shape) (hs : s ∈ shapes) (hf : isFreehandKind s = true) :
    s ∈ handlePointerMoveEraser shapes pos stroke := by
  rcases List.eq_nil_or_concat shapes with rfl | ⟨ts, t, rfl⟩
  · simp at hs
  · simp only [List.concat_eq_append] at hs ⊢
    by_cases he : isEraserKind t = true
    · rw [handlePointerMoveEraser_concat ts t pos stroke he]
      rcases List.mem_append.mp hs with hts | hlast
      · refine List.mem_append_left _ (List.mem_filter.mpr ⟨hts, ?_⟩)
        have hse := shouldErase_of_not_rigid (eraserBBoxAt pos stroke) s
          (isFreehandKind_not_rigid s hf)
        simp [hse]
      · have hst : s = t := by simpa using hlast
        subst hst
        unfold isFreehandKind at hf
        unfold isEraserKind at he
        cases hg : s.geom <;> simp_all
    · unfold handlePointerMoveEraser
      rw [List.getLast?_concat]
      simp only [he]
      simpa using hs

end Standalone

/-- C3: while drawing with the eraser, a pointer-move removes exactly the
non-last shapes whose kind is rigid (rect/circle/arrow/text) and whose
cached bbox intersects the eraser box around the pointer, while appending
the pointer position to the live eraser stroke; shapes of kind freehand or
eraser are never removed, so every freehand shape present before the pass
is still present after it. -/
theorem eraser_removes_rigid_keeps_ink :
    (∀ (pos : Standalone.Point) (stroke : ℚ) (ts : List Standalone.Shape)
        (t : Standalone.Shape),
      Standalone.isEraserKind t = true →
      Standalone.handlePointerMoveEraser (ts ++ [t]) pos stroke
        = ts.filter
            (fun s => !(Standalone.shouldErase (Standalone.eraserBBoxAt pos stroke) s))
            ++ [Standalone.pushPoint pos t]) ∧
    (∀ (ebb : Standalone.BBox) (s : Standalone.Shape),
      Standalone.shouldErase ebb s = true ↔
        Standalone.isRigidKind s.geom = true ∧
        ∃ b, s.bbox = some b ∧ Standalone.boxesIntersect ebb b = true) ∧
    (∀ (pos : Standalone.Point) (stroke : ℚ) (shapes : List Standalone.Shape)
        (s : Standalone.Shape),
      s ∈ shapes → Standalone.isFreehandKind s = true →
      s ∈ Standalone.handlePointerMoveEraser shapes pos stroke) := by
  refine ⟨?_, ?_, ?_⟩
  · intro pos stroke ts t he
    exact Standalone.handlePointerMoveEraser_concat ts t pos stroke he
  · intro ebb s
    unfold Standalone.shouldErase
    cases hb : s.bbox with
    | none => simp
    | some b =>
        simp only [Bool.and_eq_true]
        constructor
        · rintro ⟨h1, h2⟩; exact ⟨h2, b, rfl, h1⟩
        · rintro ⟨h2, b2, hb2, h1⟩
          cases hb2
          exact ⟨h1, h2⟩
  · intro pos stroke shapes s hs hf
    exact Standalone.eraser_keeps_freehand_mem shapes pos stroke s hs hf

/-- Witness for the eraser pass, on a scene holding an intersecting
rectangle, a freehand stroke, and the live eraser stroke. -/
theorem eraser_removes_rigid_keeps_ink_witness :
    Standalone.isEraserKind sEraser = true ∧
    Standalone.handlePointerMoveEraser ([sRect, sFree] ++ [sEraser]) ⟨0, 0⟩ 12
      = [sRect, sFree].filter
          (fun s => !(Standalone.shouldErase (Standalone.eraserBBoxAt ⟨0, 0⟩ 12) s))
          ++ [Standalone.pushPoint ⟨0, 0⟩ sEraser] ∧
    sFree ∈ Standalone.handlePointerMoveEraser [sRect, sFree, sEraser] ⟨0, 0⟩ 12 :=
  ⟨by decide,
   eraser_removes_rigid_keeps_ink.1 ⟨0, 0⟩ 12 [sRect, sFree] sEraser (by decide),
   eraser_removes_rigid_keeps_ink.2.2 ⟨0, 0⟩ 12 [sRect, sFree, sEraser] sFree
     (by decide) (by decide)⟩

/-! ### C5: pointer-up normalizes negative drags -/

namespace Standalone

theorem normalizeShape_rect_neg (sh : Shape) (x y w h : ℚ)
    (hg : sh.geom = .rect x y w h) (hw : w < 0) (hh : h < 0) :
    normalizeShape sh = { sh with geom := .rect (x + w) (y + h) (-w) (-h) } := by
  unfold normalizeShape
  rw [hg]
  simp [hw, hh]

theorem normalizeShape_circle_neg (sh : Shape) (x y w h : ℚ)
    (hg : sh.geom = .circle x y w h) (hw : w < 0) (hh : h < 0) :
    normalizeShape sh = { sh with geom := .circle (x + w) (y + h) (-w) (-h) } := by
  unfold normalizeShape
  rw [hg]
  simp [hw, hh]

theorem updateBoundingBox_rect (measure : Measure) (sh : Shape) (x y w h : ℚ)
    (hg : sh.geom = .rect x y w h) :
    updateBoundingBox measure sh = { sh with bbox := some ⟨x, y, w, h⟩ } := by
  unfold updateBoundingBox
  rw [hg]

theorem updateBoundingBox_circle (measure : Measure) (sh : Shape) (x y w h : ℚ)
    (hg : sh.geom = .circle x y w h) :
    updateBoundingBox measure sh = { sh with bbox := some ⟨x, y, w, h⟩ } := by
  unfold updateBoundingBox
  rw [hg]

theorem handlePointerUpDrawing_concat (measure : Measure) (s : AppState)
    (sh : Shape) (hl : s.shapes.getLast? = some sh) :
    handlePointerUpDrawing measure s
      = reducer s (.UPDATE_SHAPES
          (s.shapes.dropLast ++ [updateBoundingBox measure (normalizeShape sh)])) := by
  unfold handlePointerUpDrawing
  rw [hl]

end Standalone

/-- C5: a rect/circle drag whose end point lies up-left of its start point
is normalized on pointer-up: the committed shape has the minimal corner as
origin and non-negative width/height, its bounding box is recomputed to
match, its style fields are untouched, and the resulting scene is
committed; in particular a rectangle dragged from (10,10) to (-5,-5) ends
with origin (-5,-5) and size 15×15. -/
theorem pointer_up_normalizes_negative_drag :
    (∀ (measure : Standalone.Measure) (s : Standalone.AppState)
        (sh : Standalone.Shape) (start endp : Standalone.Point),
      s.shapes.getLast? = some sh →
      endp.x < start.x → endp.y < start.y →
      (sh.geom = Standalone.dragRectGeom start endp →
        Standalone.updateBoundingBox measure (Standalone.normalizeShape sh)
          = { sh with
                geom := .rect endp.x endp.y (start.x - endp.x) (start.y - endp.y),
                bbox := some ⟨endp.x, endp.y, start.x - endp.x, start.y - endp.y⟩ }) ∧
      (sh.geom = Standalone.dragCircleGeom start endp →
        Standalone.updateBoundingBox measure (Standalone.normalizeShape sh)
          = { sh with
                geom := .circle endp.x endp.y (start.x - endp.x) (start.y - endp.y),
                bbox := some ⟨endp.x, endp.y, start.x - endp.x, start.y - endp.y⟩ }) ∧
      0 ≤ start.x - endp.x ∧ 0 ≤ start.y - endp.y ∧
      (Standalone.handlePointerUpDrawing measure s).shapes
        = s.shapes.dropLast
            ++ [Standalone.updateBoundingBox measure (Standalone.normalizeShape sh)] ∧
      (Standalone.handlePointerUpDrawing measure s).history
        = s.history.take (s.historyIndex + 1)
            ++ [s.shapes.dropLast
                ++ [Standalone.updateBoundingBox measure (Standalone.normalizeShape sh)]]) ∧
    (Standalone.updateBoundingBox zeroMeasure
        (Standalone.normalizeShape
          { sRect with geom := Standalone.dragRectGeom ⟨10, 10⟩ ⟨-5, -5⟩ })).geom
      = .rect (-5) (-5) 15 15 := by
  constructor
  · intro measure s sh start endp hl hx hy
    have hwx : endp.x - start.x < 0 := by linarith
    have hhy : endp.y - start.y < 0 := by linarith
    have e1 : start.x + (endp.x - start.x) = endp.x := by ring
    have e2 : start.y + (endp.y - start.y) = endp.y := by ring
    have e3 : -(endp.x - start.x) = start.x - endp.x := by ring
    have e4 : -(endp.y - start.y) = start.y - endp.y := by ring
    refine ⟨?_, ?_, by linarith, by linarith, ?_, ?_⟩
    · intro hg
      rw [Standalone.normalizeShape_rect_neg sh start.x start.y
            (endp.x - start.x) (endp.y - start.y) hg hwx hhy]
      rw [Standalone.updateBoundingBox_rect measure _ (start.x + (endp.x - start.x))
            (start.y + (endp.y - start.y)) (-(endp.x - start.x)) (-(endp.y - start.y))
            rfl]
      rw [e1, e2, e3, e4]
    · intro hg
      rw [Standalone.normalizeShape_circle_neg sh start.x start.y
            (endp.x - start.x) (endp.y - start.y) hg hwx hhy]
      rw [Standalone.updateBoundingBox_circle measure _ (start.x + (endp.x - start.x))
            (start.y + (endp.y - start.y)) (-(endp.x - start.x)) (-(endp.y - start.y))
            rfl]
      rw [e1, e2, e3, e4]
    · rw [Standalone.handlePointerUpDrawing_concat measure s sh hl]
      rfl
    · rw [Standalone.handlePointerUpDrawing_concat measure s sh hl]
      rfl
  · decide

/-- Witness for the pointer-up normalization, at the spec's concrete drag
from (10,10) to (-5,-5). -/
theorem pointer_up_normalizes_negative_drag_witness :
    ((⟨-5, -5⟩ : Standalone.Point).x < (⟨10, 10⟩ : Standalone.Point).x) ∧
    Standalone.updateBoundingBox zeroMeasure
        (Standalone.normalizeShape
          { sRect with geom := Standalone.dragRectGeom ⟨10, 10⟩ ⟨-5, -5⟩ })
      = { sRect with
            geom := .rect (⟨-5, -5⟩ : Standalone.Point).x
              (⟨-5, -5⟩ : Standalone.Point).y
              ((⟨10, 10⟩ : Standalone.Point).x - (⟨-5, -5⟩ : Standalone.Point).x)
              ((⟨10, 10⟩ : Standalone.Point).y - (⟨-5, -5⟩ : Standalone.Point).y),
            bbox := some
              ⟨(⟨-5, -5⟩ : Standalone.Point).x, (⟨-5, -5⟩ : Standalone.Point).y,
               (⟨10, 10⟩ : Standalone.Point).x - (⟨-5, -5⟩ : Standalone.Point).x,
               (⟨10, 10⟩ : Standalone.Point).y - (⟨-5, -5⟩ : Standalone.Point).y⟩ } := by
  constructor
  · decide
  · exact (pointer_up_normalizes_negative_drag.1 zeroMeasure
      { shapes := [{ sRect with geom := Standalone.dragRectGeom ⟨10, 10⟩ ⟨-5, -5⟩ }],
        history := [[]], historyIndex := 0 }
      { sRect with geom := Standalone.dragRectGeom ⟨10, 10⟩ ⟨-5, -5⟩ }
      ⟨10, 10⟩ ⟨-5, -5⟩ (by decide) (by decide) (by decide)).1 rfl

/-! ### C6: empty text is discarded on blur; non-empty text is committed
with a recomputed bounding box -/

namespace Standalone

theorem updateBoundingBox_text (measure : Measure) (sh : Shape) (x y : ℚ)
    (content : String) (hg : sh.geom = .text x y content) :
    updateBoundingBox measure sh
      = { sh with bbox := some ⟨x, y - (measure content sh.fontSize).ascent,
            (measure content sh.fontSize).width,
            (measure content sh.fontSize).ascent
              + (measure content sh.fontSize).descent⟩ } := by
  unfold updateBoundingBox
  rw [hg]

theorem not_mem_eraseIdx_of_nodup_ids (shapes : List Shape) (i : Nat) (sh : Shape)
    (hget : shapes.get? i = some sh) (hnd : (shapes.map Shape.id).Nodup) :
    ∀ t ∈ shapes.eraseIdx i, t.id ≠ sh.id := by
  intro t ht heq
  rw [List.eraseIdx_eq_take_drop_succ] at ht
  have hids : ∀ j : Nat, shapes.get? j = some t → j = i := by
    intro j hj
    have h1 : (shapes.map Shape.id).get? j = some t.id := by
      rw [List.get?_map, hj]; rfl
    have h2 : (shapes.map Shape.id).get? i = some sh.id := by
      rw [List.get?_map, hget]; rfl
    have hlt : j < (shapes.map Shape.id).length := by
      have := List.get?_eq_some.mp hj
      simpa using this.1
    apply List.get?_inj hlt hnd
    rw [h1, h2, heq]
  rcases List.mem_append.mp ht with h | h
  · obtain ⟨j, hj⟩ := List.mem_iff_get?.mp h
    have hjlen : j < (shapes.take i).length := by
      have := List.get?_eq_some.mp hj
      exact this.1
    have hji : j < i := by
      have : (shapes.take i).length ≤ i := by simp
      omega
    have : shapes.get? j = some t := by
      rw [← List.get?_take hji]; exact hj
    have := hids j this
    omega
  · obtain ⟨j, hj⟩ := List.mem_iff_get?.mp h
    have : shapes.get? (i + 1 + j) = some t := by
      rw [← List.get?_drop]; exact hj
    have := hids (i + 1 + j) this
    omega

end Standalone

/-- C6: ending a text-editing session with whitespace-only content
discards the text shape — the committed scene is the old scene with that
index removed, and (when ids are unique) no shape with the edited shape's
id remains; ending with non-empty content commits the scene containing
the text shape with its bounding box recomputed from the measured
extents. -/
theorem empty_text_discarded_nonempty_committed :
    ∀ (measure : Standalone.Measure) (shapes : List Standalone.Shape) (i : Nat)
      (sh : Standalone.Shape) (x y : ℚ) (content : String),
      shapes.get? i = some sh → sh.geom = .text x y content →
      (Standalone.jsTrim content = "" →
        Standalone.finishEditingText measure shapes i = shapes.eraseIdx i ∧
        ((shapes.map Standalone.Shape.id).Nodup →
          ∀ t ∈ Standalone.finishEditingText measure shapes i, t.id ≠ sh.id)) ∧
      (¬ Standalone.jsTrim content = "" →
        Standalone.finishEditingText measure shapes i
          = shapes.set i (Standalone.updateBoundingBox measure sh) ∧
        Standalone.updateBoundingBox measure sh
          ∈ Standalone.finishEditingText measure shapes i ∧
        (Standalone.updateBoundingBox measure sh).bbox
          = some ⟨x, y - (measure content sh.fontSize).ascent,
              (measure content sh.fontSize).width,
              (measure content sh.fontSize).ascent
                + (measure content sh.fontSize).descent⟩) := by
  intro measure shapes i sh x y content hget hg
  have hilen : i < shapes.length := by
    have := List.get?_eq_some.mp hget
    exact this.1
  have hunfold : Standalone.finishEditingText measure shapes i
      = if Standalone.jsTrim content = "" then shapes.eraseIdx i
        else shapes.set i (Standalone.updateBoundingBox measure sh) := by
    unfold Standalone.finishEditingText
    rw [hget]
    dsimp only
    rw [hg]
  constructor
  · intro hempty
    rw [hunfold, if_pos hempty]
    refine ⟨rfl, fun hnd => ?_⟩
    exact Standalone.not_mem_eraseIdx_of_nodup_ids shapes i sh hget hnd
  · intro hne
    rw [hunfold, if_neg hne]
    refine ⟨rfl, ?_, ?_⟩
    · refine List.mem_iff_getElem.mpr ⟨i, ?_, ?_⟩
      · simpa using hilen
      · simp [List.getElem_set_self]
    · rw [Standalone.updateBoundingBox_text measure sh x y content hg]

/-- Witness for text-session end: a whitespace-only text shape is
discarded (and its id is gone), a non-empty one is committed in place. -/
theorem empty_text_discarded_nonempty_committed_witness :
    Standalone.jsTrim "  " = "" ∧
    Standalone.finishEditingText simpleMeasure [sRect, sTextBlank] 1
      = [sRect, sTextBlank].eraseIdx 1 ∧
    (∀ t ∈ Standalone.finishEditingText simpleMeasure [sRect, sTextBlank] 1,
      t.id ≠ sTextBlank.id) ∧
    Standalone.finishEditingText simpleMeasure [sRect, sTextHi] 1
      = [sRect, sTextHi].set 1 (Standalone.updateBoundingBox simpleMeasure sTextHi) := by
  have h1 := empty_text_discarded_nonempty_committed simpleMeasure
    [sRect, sTextBlank] 1 sTextBlank 3 4 "  " (by decide) rfl
  have h2 := empty_text_discarded_nonempty_committed simpleMeasure
    [sRect, sTextHi] 1 sTextHi 3 4 "hi" (by decide) rfl
  exact ⟨by decide, (h1.1 (by decide)).1, (h1.1 (by decide)).2 (by decide),
    (h2.2 (by decide)).1⟩

/-! ### C10: the empty text shape is committed on pointer-down and stays
reachable via undo -/

namespace Standalone

theorem commit_commit_undo (s : AppState) (a : Shape)
    (payload : List Shape) (h : s.historyIndex < s.history.length) :
    (reducer (reducer (reducer s (.ADD_SHAPE a)) (.UPDATE_SHAPES payload))
        .UNDO).shapes = s.shapes ++ [a] := by
  obtain ⟨f1, f2, f3⟩ := commitList_facts s.history s.historyIndex h (s.shapes ++ [a])
  have hs1hist : (reducer s (.ADD_SHAPE a)).history
      = s.history.take (s.historyIndex + 1) ++ [s.shapes ++ [a]] := rfl
  have hs1idx : (reducer s (.ADD_SHAPE a)).historyIndex = s.historyIndex + 1 := f2
  have hs1len : (reducer s (.ADD_SHAPE a)).history.length = s.historyIndex + 2 := f1
  have hlen1 : (reducer s (.ADD_SHAPE a)).historyIndex + 1
      = (reducer s (.ADD_SHAPE a)).history.length := by
    rw [hs1idx, hs1len]
  have htake : (reducer s (.ADD_SHAPE a)).history.take
        ((reducer s (.ADD_SHAPE a)).historyIndex + 1)
      = (reducer s (.ADD_SHAPE a)).history := by
    rw [hlen1]
    exact List.take_length _
  have hs2hist : (reducer (reducer s (.ADD_SHAPE a)) (.UPDATE_SHAPES payload)).history
      = (reducer s (.ADD_SHAPE a)).history ++ [payload] := by
    show (reducer s (.ADD_SHAPE a)).history.take
          ((reducer s (.ADD_SHAPE a)).historyIndex + 1) ++ [payload] = _
    rw [htake]
  have hs2idx : (reducer (reducer s (.ADD_SHAPE a)) (.UPDATE_SHAPES payload)).historyIndex
      = s.historyIndex + 2 := by
    show ((reducer s (.ADD_SHAPE a)).history.take
          ((reducer s (.ADD_SHAPE a)).historyIndex + 1) ++ [payload]).length - 1 = _
    rw [htake]
    simp [hs1len]
  have hpos : 0 < (reducer (reducer s (.ADD_SHAPE a))
      (.UPDATE_SHAPES payload)).historyIndex := by
    rw [hs2idx]; omega
  rw [reducer_undo_of_pos _ hpos]
  show (reducer (reducer s (.ADD_SHAPE a)) (.UPDATE_SHAPES payload)).history.getD
      ((reducer (reducer s (.ADD_SHAPE a)) (.UPDATE_SHAPES payload)).historyIndex - 1) []
    = s.shapes ++ [a]
  rw [hs2hist, hs2idx]
  have hsub : s.historyIndex + 2 - 1 = s.historyIndex + 1 := by omega
  rw [hsub, listGetD_append_left _ _ _ (by rw [hs1len]; omega), hs1hist]
  exact f3

theorem eraseIdx_concat_length (ts : List Shape) (t : Shape) :
    (ts ++ [t]).eraseIdx ts.length = ts := by
  rw [List.eraseIdx_eq_take_drop_succ]
  simp [List.take_left]

end Standalone

/-- C10: a pointer-down with the text tool immediately dispatches a
committed `ADD_SHAPE` of a text shape with empty content: the new
snapshot under the cursor contains the empty text shape.  Even after the
shape is discarded on blur (the `finishEditingText` commit removes it),
one undo returns to the snapshot that still contains the empty text
shape. -/
theorem empty_text_snapshot_reachable_via_undo :
    ∀ (measure : Standalone.Measure) (s : Standalone.AppState)
      (tid color : String) (fontSize : ℚ) (pos : Standalone.Point),
      s.historyIndex < s.history.length →
      (Standalone.newTextShapeAt measure tid color fontSize pos).geom
        = .text pos.x pos.y "" ∧
      (Standalone.handlePointerDownText measure s tid color fontSize pos).shapes
        = s.shapes ++ [Standalone.newTextShapeAt measure tid color fontSize pos] ∧
      (Standalone.handlePointerDownText measure s tid color fontSize pos).history.getD
          (Standalone.handlePointerDownText measure s tid color fontSize
            pos).historyIndex []
        = s.shapes ++ [Standalone.newTextShapeAt measure tid color fontSize pos] ∧
      Standalone.finishEditingText measure
          (Standalone.handlePointerDownText measure s tid color fontSize pos).shapes
          s.shapes.length
        = s.shapes ∧
      (Standalone.reducer
          (Standalone.reducer
            (Standalone.handlePointerDownText measure s tid color fontSize pos)
            (.UPDATE_SHAPES
              (Standalone.finishEditingText measure
                (Standalone.handlePointerDownText measure s tid color fontSize
                  pos).shapes
                s.shapes.length)))
          .UNDO).shapes
        = s.shapes ++ [Standalone.newTextShapeAt measure tid color fontSize pos] := by
  intro measure s tid color fontSize pos h
  have hgeom : (Standalone.newTextShapeAt measure tid color fontSize pos).geom
      = .text pos.x pos.y "" := rfl
  obtain ⟨f1, f2, f3⟩ := commitList_facts s.history s.historyIndex h
    (s.shapes ++ [Standalone.newTextShapeAt measure tid color fontSize pos])
  have hidx : (Standalone.handlePointerDownText measure s tid color fontSize
      pos).historyIndex = s.historyIndex + 1 := f2
  have hgetD : (Standalone.handlePointerDownText measure s tid color fontSize
        pos).history.getD
        (Standalone.handlePointerDownText measure s tid color fontSize
          pos).historyIndex []
      = s.shapes ++ [Standalone.newTextShapeAt measure tid color fontSize pos] := by
    rw [hidx]
    exact f3
  have hfin : Standalone.finishEditingText measure
        (s.shapes ++ [Standalone.newTextShapeAt measure tid color fontSize pos])
        s.shapes.length
      = s.shapes := by
    unfold Standalone.finishEditingText
    rw [List.get?_concat_length]
    dsimp only
    rw [hgeom]
    dsimp only
    rw [if_pos (by decide)]
    exact Standalone.eraseIdx_concat_length _ _
  refine ⟨hgeom, rfl, hgetD, hfin, ?_⟩
  have hpipe : Standalone.finishEditingText measure
        (Standalone.handlePointerDownText measure s tid color fontSize pos).shapes
        s.shapes.length
      = s.shapes := hfin
  rw [hpipe]
  exact Standalone.commit_commit_undo s
    (Standalone.newTextShapeAt measure tid color fontSize pos) s.shapes h

/-- Witness: from the initial state, text-tool pointer-down at (3,4),
blur-discard, then one undo shows the empty text shape again. -/
theorem empty_text_snapshot_reachable_via_undo_witness :
    Standalone.initialState.historyIndex
        < Standalone.initialState.history.length ∧
    (Standalone.reducer
        (Standalone.reducer
          (Standalone.handlePointerDownText simpleMeasure Standalone.initialState
            "t1" "#1e1e1e" 24 ⟨3, 4⟩)
          (.UPDATE_SHAPES
            (Standalone.finishEditingText simpleMeasure
              (Standalone.handlePointerDownText simpleMeasure
                Standalone.initialState "t1" "#1e1e1e" 24 ⟨3, 4⟩).shapes
              Standalone.initialState.shapes.length)))
        .UNDO).shapes
      = Standalone.initialState.shapes
          ++ [Standalone.newTextShapeAt simpleMeasure "t1" "#1e1e1e" 24 ⟨3, 4⟩] :=
  ⟨by decide,
   (empty_text_snapshot_reachable_via_undo simpleMeasure Standalone.initialState
      "t1" "#1e1e1e" 24 ⟨3, 4⟩ (by decide)).2.2.2.2⟩
